import Mathlib

/-!
Shallow embedding of the `subset_eq` procedural attribute macro
(`src/src/lib.rs`): the attribute-argument parser (`impl Parse for Args`)
and the generator entry point (`subset_eq`), together with the semantics
of the generated comparison method.

Spans of the host's syntax tree are modelled abstractly as natural
numbers: each expression node carries the number that `.span()` would
return for it.  Identifiers are modelled as strings.
-/

namespace SubsetEq

/-- An identifier token (`syn::Ident`), modelled by its text. -/
abbrev Ident := String

/-- A literal (`syn::Lit`): the code only distinguishes string literals
(`syn::Lit::Str`) from every other literal kind. -/
inductive Lit where
  | str (value : String)
  | otherLit
deriving DecidableEq

/-- The fragment of `syn::Expr` the parser inspects.  A path expression
carries its segment list (`get_ident`/`is_ident` succeed exactly when
there is a single segment); `otherExpr` stands for every expression
shape the code does not match on (binary expressions, lone literals in
item position are `lit`, etc.).  Each node carries its span. -/
inductive Expr where
  | path (span : Nat) (segments : List Ident)
  | lit (span : Nat) (l : Lit)
  | call (span : Nat) (func : Expr) (args : List Expr)
  | assign (span : Nat) (left : Expr) (right : Expr)
  | otherExpr (span : Nat)

/-- `Spanned::span` on the modelled expression. -/
def Expr.span : Expr → Nat
  | .path s _ => s
  | .lit s _ => s
  | .call s _ _ => s
  | .assign s _ _ => s
  | .otherExpr s => s

/-- `Path::get_ident`: some identifier exactly when the path is a single
plain segment. -/
def getIdent : List Ident → Option Ident
  | [i] => some i
  | _ => none

/-- `syn::Error::new(span, msg)`: a compile-time diagnostic value built
from a message and a source span.  This is the sole error channel of the
core (`to_compile_error`). -/
structure Diag where
  msg : String
  span : Nat
deriving DecidableEq

/-- Parsed attribute arguments for `#[subset_eq(...)]` (struct `Args`). -/
structure Args where
  ignored : List Ident
  method : Option Ident
deriving DecidableEq

/-- The inner loop of the `Expr::Call` branch of `Args::parse`: walk the
arguments of `ignore(...)`, pushing each bare identifier onto `ignored`,
failing at the first argument that is not a bare identifier. -/
def parseIgnoreArgs (ignored : List Ident) : List Expr → Except Diag (List Ident)
  | [] => .ok ignored
  | arg :: rest =>
    match arg with
    | .path sp segs =>
      match getIdent segs with
      | some id => parseIgnoreArgs (ignored ++ [id]) rest
      | none => .error ⟨"expected identifier in ignore(...)", sp⟩
    | a => .error ⟨"expected identifier in ignore(...)", a.span⟩

/-- One iteration of the `for item in items` loop of `Args::parse`,
threading the mutable `ignored`/`method` state as an `Args` accumulator.
The `method = "name"` branch models `format_ident!("{}", ls.value())` as
taking the literal's text verbatim; identifier-validity enforcement is
the external identifier constructor's concern, out of scope here. -/
def parseItem (acc : Args) : Expr → Except Diag Args
  | .call _ func args =>
    match func with
    | .path fsp segs =>
      if segs = ["ignore"] then
        match parseIgnoreArgs acc.ignored args with
        | .ok ign => .ok ⟨ign, acc.method⟩
        | .error e => .error e
      else
        .error ⟨"expected `ignore(...)`", fsp⟩
    | f => .error ⟨"expected path in ignore(...)", f.span⟩
  | .assign _ left right =>
    match left with
    | .path lsp segs =>
      match getIdent segs with
      | some id =>
        if id = "method" then
          match right with
          | .lit _ (.str s) => .ok ⟨acc.ignored, some s⟩
          | .lit litsp _ => .error ⟨"method value must be a string literal", litsp⟩
          | r => .error ⟨"method value must be a string literal", r.span⟩
        else
          .error ⟨"expected `method` on left-hand side", lsp⟩
      | none => .error ⟨"expected identifier on left-hand side", lsp⟩
    | l => .error ⟨"expected `method = \"...\"` syntax", l.span⟩
  | e => .error ⟨"unsupported argument; use `ignore(...)` or `method = \"...\"`", e.span⟩

/-- The `for` loop of `Args::parse` over the comma-separated item list:
the first failing item aborts the whole parse. -/
def parseItems (acc : Args) : List Expr → Except Diag Args
  | [] => .ok acc
  | item :: rest =>
    match parseItem acc item with
    | .ok acc2 => parseItems acc2 rest
    | .error e => .error e

/-- `impl Parse for Args`: parse the comma-separated argument items,
starting from empty `ignored` and absent `method`.  (Tokenisation into
an expression list is the host library's `Punctuated::parse_terminated`,
out of scope.) -/
def Args.parse (items : List Expr) : Except Diag Args :=
  parseItems ⟨[], none⟩ items

/-- The field portion of a struct declaration (`syn::Fields`).  Named
fields are modelled by their ordered name list (the code reads only the
names; types are opaque).  Non-named variants carry the span that
`other.span()` returns for them. -/
inductive Fields where
  | named (fields : List Ident)
  | unnamed (span : Nat)
  | unit (span : Nat)
deriving DecidableEq

/-- The declaration kind (`syn::Data`): struct, enum or union. -/
inductive Data where
  | struct (fields : Fields)
  | enum
  | union
deriving DecidableEq

/-- The annotated declaration (`syn::DeriveInput`): its identifier, its
data, and the span `input.span()` of the whole item. -/
structure DeriveInput where
  ident : Ident
  data : Data
  span : Nat
deriving DecidableEq

/-- The generated artifact of a successful pass: the original
declaration re-emitted unchanged, plus one `impl` block on the struct
containing a method of the resolved name whose body compares the listed
fields in order. -/
structure Artifact where
  decl : DeriveInput
  structName : Ident
  methodName : Ident
  comparedFields : List Ident
deriving DecidableEq

/-- The `filter_map` of `subset_eq` (lib.rs lines 156–167): keep each
named field whose identifier is not in `ignored`, in declaration
order. -/
def fields_to_compare (named : List Ident) (ignored : List Ident) : List Ident :=
  named.filter (fun id => ! ignored.any (fun x => x == id))

/-- The generator entry point `subset_eq`: resolve the method name
(default `eq_subset_ignoring`), require a struct with named fields,
compute the retained fields, reject a vacuous comparison, and emit the
artifact. -/
def subset_eq (input : DeriveInput) (args : Args) : Except Diag Artifact :=
  let method_name := args.method.getD "eq_subset_ignoring"
  let struct_name := input.ident
  match input.data with
  | .struct (.named named) =>
    let fields := fields_to_compare named args.ignored
    if fields.isEmpty then
      .error ⟨"no fields left to compare after ignoring specified ones", input.span⟩
    else
      .ok ⟨input, struct_name, method_name, fields⟩
  | .struct (.unnamed fsp) =>
    .error ⟨"subset_eq only supports structs with named fields", fsp⟩
  | .struct (.unit fsp) =>
    .error ⟨"subset_eq only supports structs with named fields", fsp⟩
  | _ => .error ⟨"subset_eq can only be applied to structs", input.span⟩

/-- A field value of an instance of the annotated record.  The test
record `Item` uses unsigned integers, signed integers and strings. -/
inductive Value where
  | nat (n : Nat)
  | int (i : Int)
  | str (s : String)
deriving DecidableEq

/-- Semantics of the emitted method body
`( &self.f1, &self.f2, ... ) == ( &other.f1, &other.f2, ... )`:
tuple equality is the conjunction of the component equalities, each
delegated to the field's own equality, over the compared fields in
order.  Instances are modelled as valuations from field name to
value. -/
def runGenerated (art : Artifact) (self other : Ident → Value) : Bool :=
  art.comparedFields.all (fun f => decide (self f = other f))

/-! The `Item` record of `tests/integration.rs` / `examples/demo.rs`:
`struct Item { id: u64, name: String, updated_at: i64, cache_token: String }`
annotated with `#[subset_eq(ignore(updated_at, cache_token), method = "eq_ignoring_meta")]`. -/

/-- Field names of `Item`, in declaration order. -/
def itemFields : List Ident := ["id", "name", "updated_at", "cache_token"]

/-- The `Item` declaration (span chosen arbitrarily). -/
def itemInput : DeriveInput := ⟨"Item", .struct (.named itemFields), 7⟩

/-- The parsed arguments of the `Item` directive. -/
def itemArgs : Args := ⟨["updated_at", "cache_token"], some "eq_ignoring_meta"⟩

/-- The artifact `subset_eq` produces for `Item`. -/
def itemArt : Artifact := ⟨itemInput, "Item", "eq_ignoring_meta", ["id", "name"]⟩

/-- Instance `a = Item { id: 1, name: "Alice", updated_at: 100, cache_token: "tok" }`. -/
def itemA : Ident → Value := fun f =>
  if f = "id" then .nat 1 else if f = "name" then .str "Alice"
  else if f = "updated_at" then .int 100 else .str "tok"

/-- Instance `b = Item { id: 1, name: "Alice", updated_at: 200, cache_token: "other" }`. -/
def itemB : Ident → Value := fun f =>
  if f = "id" then .nat 1 else if f = "name" then .str "Alice"
  else if f = "updated_at" then .int 200 else .str "other"

/-- Instance `c = Item { id: 2, name: "Alice", updated_at: 100, cache_token: "tok" }`. -/
def itemC : Ident → Value := fun f =>
  if f = "id" then .nat 2 else if f = "name" then .str "Alice"
  else if f = "updated_at" then .int 100 else .str "tok"

/-! Basic lemmas about the retained-field computation. -/

theorem mem_fields_to_compare (named ignored : List Ident) (f : Ident) :
    f ∈ fields_to_compare named ignored ↔ f ∈ named ∧ f ∉ ignored := by
  simp only [fields_to_compare, List.mem_filter, Bool.not_eq_true', List.any_eq_false,
    beq_iff_eq]
  constructor
  · rintro ⟨hm, hi⟩
    exact ⟨hm, fun hf => hi f hf rfl⟩
  · rintro ⟨hm, hi⟩
    exact ⟨hm, fun x hx hxf => hi (hxf ▸ hx)⟩

theorem fields_to_compare_sublist (named ignored : List Ident) :
    (fields_to_compare named ignored).Sublist named :=
  List.filter_sublist named

theorem fields_to_compare_congr (named l1 l2 : List Ident)
    (h : ∀ f, f ∈ l1 ↔ f ∈ l2) :
    fields_to_compare named l1 = fields_to_compare named l2 := by
  unfold fields_to_compare
  apply List.filter_congr
  intro x _
  have hx : l1.any (fun a => a == x) = l2.any (fun a => a == x) := by
    apply Bool.eq_iff_iff.mpr
    simp only [List.any_eq_true, beq_iff_eq]
    constructor
    · rintro ⟨a, ha, rfl⟩; exact ⟨a, (h a).mp ha, rfl⟩
    · rintro ⟨a, ha, rfl⟩; exact ⟨a, (h a).mpr ha, rfl⟩
  rw [hx]

/-- `subset_eq` depends on the ignore list only through membership:
ignore lists with the same members produce the same output. -/
theorem subset_eq_congr_ignored (input : DeriveInput) (m : Option Ident)
    (l1 l2 : List Ident) (h : ∀ f, f ∈ l1 ↔ f ∈ l2) :
    subset_eq input ⟨l1, m⟩ = subset_eq input ⟨l2, m⟩ := by
  obtain ⟨id, data, sp⟩ := input
  cases data with
  | struct f =>
    cases f with
    | named named => simp [subset_eq, fields_to_compare_congr named l1 l2 h]
    | unnamed s => rfl
    | unit s => rfl
  | enum => rfl
  | union => rfl

/-! Characterisation of `parseItem` as a function of the item alone:
whether the item is well formed, what it contributes to `ignored`, what
it sets `method` to, and which diagnostic it raises when malformed.
These are read off `parseItem` at the initial accumulator. -/

/-- Whether an argument item parses without error. -/
def itemOk (e : Expr) : Bool :=
  match parseItem ⟨[], none⟩ e with
  | .ok _ => true
  | .error _ => false

/-- The identifiers a well-formed item appends to `ignored`. -/
def itemIgnored (e : Expr) : List Ident :=
  match parseItem ⟨[], none⟩ e with
  | .ok a => a.ignored
  | .error _ => []

/-- The method name a well-formed item assigns, if any. -/
def itemMethod (e : Expr) : Option Ident :=
  match parseItem ⟨[], none⟩ e with
  | .ok a => a.method
  | .error _ => none

/-- The diagnostic a malformed item raises. -/
def itemDiag (e : Expr) : Diag :=
  match parseItem ⟨[], none⟩ e with
  | .ok _ => ⟨"", 0⟩
  | .error d => d

/-- The accumulator update a well-formed item performs. -/
def stepArgs (acc : Args) (e : Expr) : Args :=
  ⟨acc.ignored ++ itemIgnored e,
   match itemMethod e with
   | some s => some s
   | none => acc.method⟩

/-- `parseIgnoreArgs` acts on the accumulator by appending: its result
is the result at the empty accumulator, prefixed with the accumulator. -/
theorem parseIgnoreArgs_shift (acc : List Ident) (args : List Expr) :
    parseIgnoreArgs acc args =
      match parseIgnoreArgs [] args with
      | .ok l => .ok (acc ++ l)
      | .error d => .error d := by
  induction args generalizing acc with
  | nil => simp [parseIgnoreArgs]
  | cons a rest ih =>
    cases a with
    | path sp segs =>
      cases hg : getIdent segs with
      | some id =>
        simp only [parseIgnoreArgs, hg, List.nil_append]
        rw [ih (acc ++ [id]), ih [id]]
        cases parseIgnoreArgs [] rest with
        | ok l => simp
        | error d => simp
      | none => simp [parseIgnoreArgs, hg]
    | lit sp l => simp [parseIgnoreArgs]
    | call sp f args2 => simp [parseIgnoreArgs]
    | assign sp l r => simp [parseIgnoreArgs]
    | otherExpr sp => simp [parseIgnoreArgs]

/-- `parseItem` as a function of the item alone: a well-formed item
performs the `stepArgs` update of the accumulator, a malformed item
raises its own diagnostic regardless of the accumulator. -/
theorem parseItem_spec (acc : Args) (e : Expr) :
    parseItem acc e =
      if itemOk e then .ok (stepArgs acc e) else .error (itemDiag e) := by
  cases e with
  | call sp func args =>
    cases func with
    | path fsp segs =>
      by_cases hseg : segs = ["ignore"]
      · subst hseg
        simp only [parseItem, itemOk, itemIgnored, itemMethod, itemDiag, stepArgs, if_pos rfl]
        rw [parseIgnoreArgs_shift acc.ignored args, parseIgnoreArgs_shift [] args]
        cases parseIgnoreArgs [] args with
        | ok l => simp [Except.isOk]
        | error d => simp [Except.isOk]
      · simp [parseItem, itemOk, itemIgnored, itemMethod, itemDiag, stepArgs, hseg,
          Except.isOk]
    | lit s l => simp [parseItem, itemOk, itemDiag, Expr.span]
    | call s f a => simp [parseItem, itemOk, itemDiag, Expr.span]
    | assign s l r => simp [parseItem, itemOk, itemDiag, Expr.span]
    | otherExpr s => simp [parseItem, itemOk, itemDiag, Expr.span]
  | assign sp left right =>
    cases left with
    | path lsp segs =>
      cases hg : getIdent segs with
      | some id =>
        by_cases hm : id = "method"
        · subst hm
          cases right with
          | lit rsp l =>
            cases l with
            | str s =>
              simp [parseItem, itemOk, itemIgnored, itemMethod, itemDiag, stepArgs, hg,
                Except.isOk]
            | otherLit =>
              simp [parseItem, itemOk, itemDiag, hg]
          | path a b => simp [parseItem, itemOk, itemDiag, hg, Expr.span]
          | call a b c => simp [parseItem, itemOk, itemDiag, hg, Expr.span]
          | assign a b c => simp [parseItem, itemOk, itemDiag, hg, Expr.span]
          | otherExpr a => simp [parseItem, itemOk, itemDiag, hg, Expr.span]
        · simp [parseItem, itemOk, itemDiag, hg, hm]
      | none => simp [parseItem, itemOk, itemDiag, hg]
    | lit a b => simp [parseItem, itemOk, itemDiag, Expr.span]
    | call a b c => simp [parseItem, itemOk, itemDiag, Expr.span]
    | assign a b c => simp [parseItem, itemOk, itemDiag, Expr.span]
    | otherExpr a => simp [parseItem, itemOk, itemDiag, Expr.span]
  | path sp segs => simp [parseItem, itemOk, itemDiag, Expr.span]
  | lit sp l => simp [parseItem, itemOk, itemDiag, Expr.span]
  | otherExpr sp => simp [parseItem, itemOk, itemDiag, Expr.span]

/-- A run over well-formed items succeeds and folds `stepArgs`. -/
theorem parseItems_ok (acc : Args) (items : List Expr)
    (h : ∀ e ∈ items, itemOk e = true) :
    parseItems acc items = .ok (items.foldl stepArgs acc) := by
  induction items generalizing acc with
  | nil => rfl
  | cons e rest ih =>
    have he := h e (List.mem_cons_self e rest)
    simp only [parseItems, parseItem_spec acc e, he, if_true, List.foldl_cons]
    exact ih (stepArgs acc e) (fun x hx => h x (List.mem_cons_of_mem e hx))

/-- A successful run means every item was well formed and the result is
the `stepArgs` fold. -/
theorem parseItems_ok_inv (acc : Args) (items : List Expr) (args : Args)
    (h : parseItems acc items = .ok args) :
    (∀ e ∈ items, itemOk e = true) ∧ args = items.foldl stepArgs acc := by
  induction items generalizing acc with
  | nil =>
    simp only [parseItems] at h
    exact ⟨by simp, by cases h; rfl⟩
  | cons e rest ih =>
    rw [parseItems, parseItem_spec acc e] at h
    by_cases he : itemOk e = true
    · rw [if_pos he] at h
      obtain ⟨h1, h2⟩ := ih (stepArgs acc e) h
      refine ⟨?_, by simpa using h2⟩
      intro x hx
      rcases List.mem_cons.mp hx with rfl | hx2
      · exact he
      · exact h1 x hx2
    · rw [if_neg he] at h
      cases h

/-- The method-name state after folding the item updates: the last
`method = ...` assignment wins. -/
def lastMethodAux (m : Option Ident) : List Expr → Option Ident
  | [] => m
  | e :: rest =>
    lastMethodAux (match itemMethod e with | some s => some s | none => m) rest

/-- The `stepArgs` fold, in closed form: ignored identifiers are
concatenated in item order and the last method assignment wins. -/
theorem foldl_stepArgs (acc : Args) (items : List Expr) :
    items.foldl stepArgs acc =
      ⟨acc.ignored ++ items.flatMap itemIgnored, lastMethodAux acc.method items⟩ := by
  induction items generalizing acc with
  | nil => simp [lastMethodAux]
  | cons e rest ih =>
    rw [List.foldl_cons, ih]
    simp [stepArgs, lastMethodAux, List.flatMap_cons, List.append_assoc]

/-- `lastMethodAux` is the method of the last method-assigning item. -/
theorem lastMethodAux_eq (m : Option Ident) (items : List Expr) :
    lastMethodAux m items =
      match (items.filter (fun e => (itemMethod e).isSome)).getLast? with
      | some e => itemMethod e
      | none => m := by
  induction items generalizing m with
  | nil => simp [lastMethodAux]
  | cons e rest ih =>
    cases hm : itemMethod e with
    | none =>
      simp only [lastMethodAux, hm, List.filter_cons]
      rw [ih]
      simp [hm]
    | some s =>
      simp only [lastMethodAux, hm, List.filter_cons]
      rw [ih]
      cases hf : (rest.filter fun e => (itemMethod e).isSome) with
      | nil => simp [hf, hm, Option.isSome]
      | cons x xs =>
        simp only [hf, hm, Option.isSome, if_pos rfl]
        cases hg : (x :: xs).getLast? with
        | none => exact absurd (List.getLast?_eq_none_iff.mp hg) (by simp)
        | some y => simp [hg]

/-- Two permuted lists of length at most one are equal. -/
theorem perm_eq_of_length_le_one {α : Type} {l1 l2 : List α} (h : l1.Perm l2)
    (hl : l1.length ≤ 1) : l1 = l2 := by
  match l1, hl with
  | [], _ => exact h.nil_eq
  | [a], _ => exact List.singleton_perm.mp h

/-- Whether an item is assignment-shaped (`Expr::Assign`), i.e. a
`method = ...` candidate. -/
def isMethodAssign : Expr → Bool
  | .assign _ _ _ => true
  | _ => false

/-- A well-formed assignment item yields exactly `method := some s`,
leaving `ignored` untouched. -/
theorem parseItem_assign_ok (acc : Args) (sp : Nat) (l r : Expr) (a : Args)
    (h : parseItem acc (.assign sp l r) = .ok a) :
    ∃ s, a = ⟨acc.ignored, some s⟩ := by
  cases l with
  | path lsp segs =>
    cases hg : getIdent segs with
    | some id =>
      by_cases hm : id = "method"
      · subst hm
        cases r with
        | lit rsp li =>
          cases li with
          | str s =>
            simp only [parseItem, hg, reduceIte] at h
            cases h
            exact ⟨s, rfl⟩
          | otherLit => simp [parseItem, hg] at h
        | path x y => simp [parseItem, hg] at h
        | call x y z => simp [parseItem, hg] at h
        | assign x y z => simp [parseItem, hg] at h
        | otherExpr x => simp [parseItem, hg] at h
      · simp [parseItem, hg, hm] at h
    | none => simp [parseItem, hg] at h
  | lit x y => simp [parseItem] at h
  | call x y z => simp [parseItem] at h
  | assign x y z => simp [parseItem] at h
  | otherExpr x => simp [parseItem] at h

/-- A call item never assigns a method. -/
theorem itemMethod_call (sp : Nat) (f : Expr) (args : List Expr) :
    itemMethod (.call sp f args) = none := by
  unfold itemMethod
  cases f with
  | path fsp segs =>
    by_cases hseg : segs = ["ignore"]
    · subst hseg
      simp only [parseItem, reduceIte]
      cases h : parseIgnoreArgs [] args <;> simp [h]
    · simp [parseItem, hseg]
  | lit a b => simp [parseItem]
  | call a b c => simp [parseItem]
  | assign a b c => simp [parseItem]
  | otherExpr a => simp [parseItem]

/-- On well-formed items, assigning a method is the same as being
assignment-shaped. -/
theorem itemMethod_isSome_eq (e : Expr) (h : itemOk e = true) :
    (itemMethod e).isSome = isMethodAssign e := by
  cases e with
  | assign sp l r =>
    unfold itemOk at h
    cases hp : parseItem ⟨[], none⟩ (.assign sp l r) with
    | ok a =>
      obtain ⟨s, rfl⟩ := parseItem_assign_ok _ sp l r a hp
      simp [itemMethod, hp, isMethodAssign]
    | error d => rw [hp] at h; simp at h
  | call sp f args => simp [itemMethod_call, isMethodAssign]
  | path sp segs => simp [itemMethod, parseItem, isMethodAssign]
  | lit sp li => simp [itemMethod, parseItem, isMethodAssign]
  | otherExpr sp => simp [itemMethod, parseItem, isMethodAssign]

/-- `Args::parse` in closed form: a successful parse means every item
was well formed, the ignore lists are concatenated in item order, and
the last method assignment wins. -/
theorem Args_parse_ok_inv (items : List Expr) (args : Args)
    (h : Args.parse items = .ok args) :
    (∀ e ∈ items, itemOk e = true) ∧
      args = ⟨items.flatMap itemIgnored, lastMethodAux none items⟩ := by
  obtain ⟨h1, h2⟩ := parseItems_ok_inv ⟨[], none⟩ items args h
  rw [foldl_stepArgs] at h2
  exact ⟨h1, by simpa using h2⟩

/-- A failed run names a malformed item's own diagnostic. -/
theorem parseItems_error_inv (acc : Args) (items : List Expr) (d : Diag)
    (h : parseItems acc items = .error d) :
    ∃ e ∈ items, itemOk e = false ∧ d = itemDiag e := by
  induction items generalizing acc with
  | nil => simp [parseItems] at h
  | cons e rest ih =>
    rw [parseItems, parseItem_spec acc e] at h
    by_cases he : itemOk e = true
    · rw [if_pos he] at h
      obtain ⟨x, hx, hxo, hxd⟩ := ih (stepArgs acc e) h
      exact ⟨x, List.mem_cons_of_mem e hx, hxo, hxd⟩
    · rw [if_neg he] at h
      cases h
      exact ⟨e, List.mem_cons_self e rest, Bool.eq_false_iff.mpr he, rfl⟩

/-- The parse aborts at the first malformed item, with that item's
diagnostic, regardless of what follows. -/
theorem parseItems_first_error (acc : Args) (pre : List Expr) (bad : Expr)
    (post : List Expr) (hpre : ∀ e ∈ pre, itemOk e = true)
    (hbad : itemOk bad = false) :
    parseItems acc (pre ++ bad :: post) = .error (itemDiag bad) := by
  induction pre generalizing acc with
  | nil =>
    rw [List.nil_append, parseItems, parseItem_spec acc bad, hbad]
    simp
  | cons e rest ih =>
    have he := hpre e (List.mem_cons_self e rest)
    rw [List.cons_append, parseItems, parseItem_spec acc e, he]
    simp only [if_true]
    exact ih (stepArgs acc e) (fun x hx => hpre x (List.mem_cons_of_mem e hx))

/-- Every diagnostic message the core can emit. -/
def coreMessages : List String :=
  ["expected identifier in ignore(...)",
   "expected `ignore(...)`",
   "expected path in ignore(...)",
   "method value must be a string literal",
   "expected `method` on left-hand side",
   "expected identifier on left-hand side",
   "expected `method = \"...\"` syntax",
   "unsupported argument; use `ignore(...)` or `method = \"...\"`",
   "subset_eq only supports structs with named fields",
   "subset_eq can only be applied to structs",
   "no fields left to compare after ignoring specified ones"]

/-- Every `ignore(...)` argument rejection carries the fixed message. -/
theorem parseIgnoreArgs_error_msg (acc : List Ident) (args : List Expr) (d : Diag)
    (h : parseIgnoreArgs acc args = .error d) :
    d.msg = "expected identifier in ignore(...)" := by
  induction args generalizing acc with
  | nil => simp [parseIgnoreArgs] at h
  | cons a rest ih =>
    cases a with
    | path sp segs =>
      cases hg : getIdent segs with
      | some id =>
        simp only [parseIgnoreArgs, hg] at h
        exact ih (acc ++ [id]) h
      | none =>
        simp only [parseIgnoreArgs, hg] at h
        cases h
        rfl
    | lit x y => simp only [parseIgnoreArgs] at h; cases h; rfl
    | call x y z => simp only [parseIgnoreArgs] at h; cases h; rfl
    | assign x y z => simp only [parseIgnoreArgs] at h; cases h; rfl
    | otherExpr x => simp only [parseIgnoreArgs] at h; cases h; rfl

/-- Every item rejection carries one of the fixed core messages. -/
theorem parseItem_error_msg (acc : Args) (e : Expr) (d : Diag)
    (h : parseItem acc e = .error d) : d.msg ∈ coreMessages := by
  cases e with
  | call sp func args =>
    cases func with
    | path fsp segs =>
      by_cases hseg : segs = ["ignore"]
      · subst hseg
        simp only [parseItem, reduceIte] at h
        cases hp : parseIgnoreArgs acc.ignored args with
        | ok l => rw [hp] at h; cases h
        | error d2 =>
          rw [hp] at h
          cases h
          rw [parseIgnoreArgs_error_msg _ _ _ hp]
          simp [coreMessages]
      · simp only [parseItem, if_neg hseg] at h
        cases h
        simp [coreMessages]
    | lit a b => simp only [parseItem] at h; cases h; simp [coreMessages]
    | call a b c => simp only [parseItem] at h; cases h; simp [coreMessages]
    | assign a b c => simp only [parseItem] at h; cases h; simp [coreMessages]
    | otherExpr a => simp only [parseItem] at h; cases h; simp [coreMessages]
  | assign sp left right =>
    cases left with
    | path lsp segs =>
      cases hg : getIdent segs with
      | some id =>
        by_cases hm : id = "method"
        · subst hm
          cases right with
          | lit rsp li =>
            cases li with
            | str s => simp [parseItem, hg] at h
            | otherLit =>
              simp only [parseItem, hg, reduceIte] at h
              cases h
              simp [coreMessages]
          | path x y =>
            simp only [parseItem, hg, reduceIte] at h
            cases h
            simp [coreMessages]
          | call x y z =>
            simp only [parseItem, hg, reduceIte] at h
            cases h
            simp [coreMessages]
          | assign x y z =>
            simp only [parseItem, hg, reduceIte] at h
            cases h
            simp [coreMessages]
          | otherExpr x =>
            simp only [parseItem, hg, reduceIte] at h
            cases h
            simp [coreMessages]
        · simp only [parseItem, hg, if_neg hm] at h
          cases h
          simp [coreMessages]
      | none =>
        simp only [parseItem, hg] at h
        cases h
        simp [coreMessages]
    | lit x y => simp only [parseItem] at h; cases h; simp [coreMessages]
    | call x y z => simp only [parseItem] at h; cases h; simp [coreMessages]
    | assign x y z => simp only [parseItem] at h; cases h; simp [coreMessages]
    | otherExpr x => simp only [parseItem] at h; cases h; simp [coreMessages]
  | path sp segs => simp only [parseItem] at h; cases h; simp [coreMessages]
  | lit sp li => simp only [parseItem] at h; cases h; simp [coreMessages]
  | otherExpr sp => simp only [parseItem] at h; cases h; simp [coreMessages]

/-- Every generator rejection carries one of the fixed core messages. -/
theorem subset_eq_error_msg (input : DeriveInput) (args : Args) (d : Diag)
    (h : subset_eq input args = .error d) : d.msg ∈ coreMessages := by
  obtain ⟨id, data, sp⟩ := input
  cases data with
  | struct f =>
    cases f with
    | named named =>
      simp only [subset_eq] at h
      by_cases he : (fields_to_compare named args.ignored).isEmpty
      · rw [if_pos he] at h
        cases h
        simp [coreMessages]
      · rw [if_neg he] at h
        cases h
    | unnamed s =>
      simp only [subset_eq] at h
      cases h
      simp [coreMessages]
    | unit s =>
      simp only [subset_eq] at h
      cases h
      simp [coreMessages]
  | enum =>
    simp only [subset_eq] at h
    cases h
    simp [coreMessages]
  | union =>
    simp only [subset_eq] at h
    cases h
    simp [coreMessages]

/-- Inversion of a successful generation: the input was a struct with
named fields and the artifact is determined by the inputs. -/
theorem subset_eq_ok_inv (input : DeriveInput) (args : Args) (art : Artifact)
    (h : subset_eq input args = .ok art) :
    ∃ named, input.data = .struct (.named named) ∧
      art = ⟨input, input.ident, args.method.getD "eq_subset_ignoring",
             fields_to_compare named args.ignored⟩ := by
  obtain ⟨id, data, sp⟩ := input
  cases data with
  | struct f =>
    cases f with
    | named named =>
      refine ⟨named, rfl, ?_⟩
      simp only [subset_eq] at h
      by_cases he : (fields_to_compare named args.ignored).isEmpty
      · rw [if_pos he] at h; cases h
      · rw [if_neg he] at h; cases h; rfl
    | unnamed s => simp [subset_eq] at h
    | unit s => simp [subset_eq] at h
  | enum => simp [subset_eq] at h
  | union => simp [subset_eq] at h

/-- The argument item `ignore(i1, ..., in)` (all spans 0). -/
def mkIgnoreCall (ids : List Ident) : Expr :=
  .call 0 (.path 0 ["ignore"]) (ids.map (fun i => .path 0 [i]))

/-- The argument item `method = "s"` (all spans 0). -/
def mkMethodAssign (s : String) : Expr :=
  .assign 0 (.path 0 ["method"]) (.lit 0 (.str s))

/-- `parseIgnoreArgs` on a list of bare identifiers appends them all. -/
theorem parseIgnoreArgs_idents (acc : List Ident) (ids : List Ident) :
    parseIgnoreArgs acc (ids.map (fun i => .path 0 [i])) = .ok (acc ++ ids) := by
  induction ids generalizing acc with
  | nil => simp [parseIgnoreArgs]
  | cons i rest ih =>
    simp only [List.map_cons, parseIgnoreArgs, getIdent]
    rw [ih]
    simp

/-- Parsing an `ignore(...)` item of bare identifiers appends them to
the accumulated ignore list. -/
theorem parseItem_mkIgnoreCall (acc : Args) (ids : List Ident) :
    parseItem acc (mkIgnoreCall ids) = .ok ⟨acc.ignored ++ ids, acc.method⟩ := by
  simp only [mkIgnoreCall, parseItem, reduceIte, parseIgnoreArgs_idents]

/-! The claims. -/

/-- C1: for every record with named fields and every parsed ignore
list, a field is among the compared (retained) fields exactly when its
name is not in the ignore set, and the retained fields form a sublist
of the record's fields, hence keep declaration order. -/
theorem C1_retained_fields (name : Ident) (sp : Nat) (fields : List Ident)
    (args : Args) (art : Artifact)
    (h : subset_eq ⟨name, .struct (.named fields), sp⟩ args = .ok art) :
    (∀ f, f ∈ art.comparedFields ↔ f ∈ fields ∧ f ∉ args.ignored) ∧
      art.comparedFields.Sublist fields := by
  obtain ⟨named, hdata, rfl⟩ := subset_eq_ok_inv _ args art h
  have hn : fields = named := by
    simpa using hdata
  subst hn
  exact ⟨fun f => mem_fields_to_compare fields args.ignored f,
    fields_to_compare_sublist fields args.ignored⟩

theorem C1_retained_fields_witness :
    (("id" : Ident) ∈ itemArt.comparedFields ↔
        ("id" : Ident) ∈ itemFields ∧ ("id" : Ident) ∉ itemArgs.ignored) ∧
      itemArt.comparedFields.Sublist itemFields := by
  have h := C1_retained_fields "Item" 7 itemFields itemArgs itemArt rfl
  exact ⟨h.1 "id", h.2⟩

/-- C2: for every successfully generated method, instances equal on all
fields compare true, instances differing only in ignored fields compare
true, and instances differing in a retained field compare false. -/
theorem C2_generated_method_soundness (name : Ident) (sp : Nat)
    (fields : List Ident) (args : Args) (art : Artifact)
    (a b : Ident → Value)
    (h : subset_eq ⟨name, .struct (.named fields), sp⟩ args = .ok art) :
    ((∀ f ∈ fields, a f = b f) → runGenerated art a b = true) ∧
    ((∀ f ∈ fields, f ∉ args.ignored → a f = b f) → runGenerated art a b = true) ∧
    ((∃ f ∈ art.comparedFields, a f ≠ b f) → runGenerated art a b = false) := by
  obtain ⟨named, hdata, rfl⟩ := subset_eq_ok_inv _ args art h
  have hn : fields = named := by
    simpa using hdata
  subst hn
  refine ⟨?_, ?_, ?_⟩
  · intro hab
    simp only [runGenerated, List.all_eq_true, decide_eq_true_eq]
    intro f hf
    exact hab f ((mem_fields_to_compare _ _ f).mp hf).1
  · intro hab
    simp only [runGenerated, List.all_eq_true, decide_eq_true_eq]
    intro f hf
    obtain ⟨h1, h2⟩ := (mem_fields_to_compare _ _ f).mp hf
    exact hab f h1 h2
  · rintro ⟨f, hf, hne⟩
    simp only [runGenerated]
    apply List.all_eq_false.mpr
    exact ⟨f, hf, by simpa using hne⟩

theorem C2_generated_method_soundness_witness :
    runGenerated itemArt itemA itemB = true ∧
      runGenerated itemArt itemA itemC = false := by
  constructor
  · exact (C2_generated_method_soundness "Item" 7 itemFields itemArgs itemArt
      itemA itemB rfl).2.1 (by decide)
  · exact (C2_generated_method_soundness "Item" 7 itemFields itemArgs itemArt
      itemA itemC rfl).2.2 ⟨"id", by decide, by decide⟩

/-- C3: when the ignore set names every field of the record, generation
fails with the vacuous-comparison diagnostic anchored at the
declaration's span, and no method is emitted. -/
theorem C3_vacuity_rejection (name : Ident) (sp : Nat) (fields : List Ident)
    (args : Args) (h : ∀ f ∈ fields, f ∈ args.ignored) :
    subset_eq ⟨name, .struct (.named fields), sp⟩ args =
      .error ⟨"no fields left to compare after ignoring specified ones", sp⟩ := by
  have hempty : fields_to_compare fields args.ignored = [] := by
    apply List.filter_eq_nil_iff.mpr
    intro f hf
    simp only [Bool.not_eq_true', Bool.not_eq_false, List.any_eq_true, beq_iff_eq]
    exact ⟨f, h f hf, rfl⟩
  simp [subset_eq, hempty]

theorem C3_vacuity_rejection_witness :
    subset_eq itemInput ⟨itemFields, none⟩ =
      .error ⟨"no fields left to compare after ignoring specified ones", 7⟩ :=
  C3_vacuity_rejection "Item" 7 itemFields ⟨itemFields, none⟩ (by decide)

/-- C4: the generated method's name is the parsed method name when one
was supplied, and exactly `eq_subset_ignoring` otherwise. -/
theorem C4_method_naming (input : DeriveInput) (args : Args) (art : Artifact)
    (h : subset_eq input args = .ok art) :
    (∀ m, args.method = some m → art.methodName = m) ∧
      (args.method = none → art.methodName = "eq_subset_ignoring") := by
  obtain ⟨named, hdata, rfl⟩ := subset_eq_ok_inv input args art h
  constructor
  · intro m hm
    simp [hm]
  · intro hm
    simp [hm]

/-- The artifact generated for `Item` when no method name is given. -/
def defaultArt : Artifact := ⟨itemInput, "Item", "eq_subset_ignoring", ["id", "name"]⟩

theorem C4_method_naming_witness :
    itemArt.methodName = "eq_ignoring_meta" ∧
      defaultArt.methodName = "eq_subset_ignoring" := by
  constructor
  · exact (C4_method_naming itemInput itemArgs itemArt rfl).1 "eq_ignoring_meta" rfl
  · exact (C4_method_naming itemInput ⟨["updated_at", "cache_token"], none⟩
      defaultArt rfl).2 rfl

/-- C5: ignore lists with the same members (in particular, with
duplicated names) generate identical methods, and repeated
`ignore(...)` items union (concatenate) their contents. -/
theorem C5_ignore_idempotent_union :
    (∀ (input : DeriveInput) (m : Option Ident) (l1 l2 : List Ident),
        (∀ f, f ∈ l1 ↔ f ∈ l2) →
        subset_eq input ⟨l1, m⟩ = subset_eq input ⟨l2, m⟩) ∧
    (∀ (ids1 ids2 : List Ident),
        Args.parse [mkIgnoreCall ids1, mkIgnoreCall ids2] =
          .ok ⟨ids1 ++ ids2, none⟩) := by
  constructor
  · exact fun input m l1 l2 h => subset_eq_congr_ignored input m l1 l2 h
  · intro ids1 ids2
    rw [Args.parse, parseItems, parseItem_mkIgnoreCall]
    simp only [parseItems, parseItem_mkIgnoreCall]
    simp

theorem C5_ignore_idempotent_union_witness :
    subset_eq itemInput
        ⟨["updated_at", "updated_at", "cache_token"], some "eq_ignoring_meta"⟩ =
      subset_eq itemInput ⟨["updated_at", "cache_token"], some "eq_ignoring_meta"⟩ ∧
    Args.parse [mkIgnoreCall ["updated_at"], mkIgnoreCall ["cache_token"]] =
      .ok ⟨["updated_at", "cache_token"], none⟩ := by
  constructor
  · apply C5_ignore_idempotent_union.1
    intro f
    constructor
    · intro h
      simp only [List.mem_cons] at h ⊢
      tauto
    · intro h
      simp only [List.mem_cons] at h ⊢
      tauto
  · exact C5_ignore_idempotent_union.2 ["updated_at"] ["cache_token"]

/-- A record used for the order-invariance statements. -/
def permInput : DeriveInput := ⟨"S", .struct (.named ["a", "b", "c"]), 0⟩

/-- C6 counterexample: two `method = "..."` assignments are each
well-formed argument items, yet permuting them changes the generated
artifact, because the last assignment wins.  So permuting well-formed
argument items does not always produce an identical artifact. -/
theorem C6_order_invariance_counterexample :
    ([mkMethodAssign "m1", mkMethodAssign "m2"] : List Expr).Perm
        [mkMethodAssign "m2", mkMethodAssign "m1"] ∧
    Args.parse [mkMethodAssign "m1", mkMethodAssign "m2"] = .ok ⟨[], some "m2"⟩ ∧
    Args.parse [mkMethodAssign "m2", mkMethodAssign "m1"] = .ok ⟨[], some "m1"⟩ ∧
    subset_eq permInput ⟨[], some "m2"⟩ ≠ subset_eq permInput ⟨[], some "m1"⟩ := by
  refine ⟨List.Perm.swap _ _ _, rfl, rfl, ?_⟩
  intro h
  have hm : ("m2" : String) = "m1" :=
    congrArg (fun x => match x with | .ok a => a.methodName | .error _ => "") h
  exact absurd hm (by decide)

/-- C6 (amended): permuting well-formed argument items containing at
most one `method = "..."` assignment produces an identical generated
artifact. -/
theorem C6_order_invariance_amended (input : DeriveInput)
    (items1 items2 : List Expr) (args1 args2 : Args)
    (hp : items1.Perm items2)
    (hm : items1.countP isMethodAssign ≤ 1)
    (h1 : Args.parse items1 = .ok args1)
    (h2 : Args.parse items2 = .ok args2) :
    subset_eq input args1 = subset_eq input args2 := by
  obtain ⟨ok1, rfl⟩ := Args_parse_ok_inv items1 args1 h1
  obtain ⟨ok2, rfl⟩ := Args_parse_ok_inv items2 args2 h2
  have hfilter : items1.filter (fun e => (itemMethod e).isSome) =
      items2.filter (fun e => (itemMethod e).isSome) := by
    apply perm_eq_of_length_le_one (List.Perm.filter _ hp)
    have hagree : items1.filter (fun e => (itemMethod e).isSome) =
        items1.filter isMethodAssign :=
      List.filter_congr (fun e he => itemMethod_isSome_eq e (ok1 e he))
    rw [hagree, ← List.countP_eq_length_filter]
    exact hm
  have hmeth : lastMethodAux none items1 = lastMethodAux none items2 := by
    rw [lastMethodAux_eq, lastMethodAux_eq, hfilter]
  have hign : ∀ f, f ∈ items1.flatMap itemIgnored ↔ f ∈ items2.flatMap itemIgnored :=
    fun f => (hp.flatMap_right itemIgnored).mem_iff
  rw [hmeth]
  exact subset_eq_congr_ignored input _ _ _ hign

theorem C6_order_invariance_amended_witness :
    subset_eq permInput ⟨["a", "b"], none⟩ =
      subset_eq permInput ⟨["b", "a"], none⟩ :=
  C6_order_invariance_amended permInput
    [mkIgnoreCall ["a"], mkIgnoreCall ["b"]]
    [mkIgnoreCall ["b"], mkIgnoreCall ["a"]]
    ⟨["a", "b"], none⟩ ⟨["b", "a"], none⟩
    (List.Perm.swap _ _ _) (by decide) rfl rfl

/-- C7: the first malformed argument item aborts the whole parse with
that item's own diagnostic, regardless of what precedes (well-formed
items) or follows; no partial result is produced and no errors are
aggregated. -/
theorem C7_first_malformed_aborts (pre : List Expr) (bad : Expr)
    (post : List Expr) (hpre : ∀ e ∈ pre, itemOk e = true)
    (hbad : itemOk bad = false) :
    Args.parse (pre ++ bad :: post) = .error (itemDiag bad) :=
  parseItems_first_error ⟨[], none⟩ pre bad post hpre hbad

theorem C7_first_malformed_aborts_witness :
    Args.parse [mkIgnoreCall ["a"], Expr.otherExpr 5, mkMethodAssign "m"] =
      .error ⟨"unsupported argument; use `ignore(...)` or `method = \"...\"`", 5⟩ :=
  C7_first_malformed_aborts [mkIgnoreCall ["a"]] (Expr.otherExpr 5)
    [mkMethodAssign "m"] (by decide) (by decide)

/-- C8: a struct without named fields is rejected with a diagnostic
anchored at its fields' span, and a non-struct item (enum or union) is
rejected with a diagnostic anchored at the whole item's span. -/
theorem C8_wrong_shape_or_kind (name : Ident) (sp fsp : Nat) (args : Args) :
    subset_eq ⟨name, .struct (.unnamed fsp), sp⟩ args =
      .error ⟨"subset_eq only supports structs with named fields", fsp⟩ ∧
    subset_eq ⟨name, .struct (.unit fsp), sp⟩ args =
      .error ⟨"subset_eq only supports structs with named fields", fsp⟩ ∧
    subset_eq ⟨name, .enum, sp⟩ args =
      .error ⟨"subset_eq can only be applied to structs", sp⟩ ∧
    subset_eq ⟨name, .union, sp⟩ args =
      .error ⟨"subset_eq can only be applied to structs", sp⟩ :=
  ⟨rfl, rfl, rfl, rfl⟩

/-- C9: every rejection of the parser or the generator is a diagnostic
value carrying one of the fixed core messages together with a source
span (the sole error channel), and the text of a well-formed
`method = "..."` string literal becomes the method name with no other
failure mode in the parser. -/
theorem C9_diagnostic_channel :
    (∀ (items : List Expr) (d : Diag), Args.parse items = .error d →
        d.msg ∈ coreMessages) ∧
    (∀ (input : DeriveInput) (args : Args) (d : Diag),
        subset_eq input args = .error d → d.msg ∈ coreMessages) ∧
    (∀ (sp lsp rsp : Nat) (s : String),
        Args.parse [.assign sp (.path lsp ["method"]) (.lit rsp (.str s))] =
          .ok ⟨[], some s⟩) := by
  refine ⟨?_, fun input args d h => subset_eq_error_msg input args d h, ?_⟩
  · intro items d h
    obtain ⟨e, he, ho, rfl⟩ := parseItems_error_inv ⟨[], none⟩ items d h
    have hspec := parseItem_spec ⟨[], none⟩ e
    rw [ho] at hspec
    simp only [Bool.false_eq_true, if_false] at hspec
    exact parseItem_error_msg ⟨[], none⟩ e (itemDiag e) hspec
  · intro sp lsp rsp s
    simp [Args.parse, parseItems, parseItem, getIdent, reduceIte]

theorem C9_diagnostic_channel_witness :
    (("unsupported argument; use `ignore(...)` or `method = \"...\"`" : String) ∈
        coreMessages) ∧
    (("subset_eq can only be applied to structs" : String) ∈ coreMessages) ∧
    Args.parse [Expr.assign 0 (.path 1 ["method"]) (.lit 2 (.str "my_eq"))] =
      .ok ⟨[], some "my_eq"⟩ := by
  refine ⟨?_, ?_, C9_diagnostic_channel.2.2 0 1 2 "my_eq"⟩
  · exact C9_diagnostic_channel.1 [Expr.otherExpr 3]
      ⟨"unsupported argument; use `ignore(...)` or `method = \"...\"`", 3⟩ rfl
  · exact C9_diagnostic_channel.2.1 ⟨"E", .enum, 4⟩ ⟨[], none⟩
      ⟨"subset_eq can only be applied to structs", 4⟩ rfl

/-- C10: with an empty ignore set, generation on a record with at least
one named field succeeds, compares every field in declaration order,
and the generated method returns true exactly when the two instances
agree on every field. -/
theorem C10_empty_ignore_full_equality (name : Ident) (sp : Nat)
    (fields : List Ident) (m : Option Ident) (hne : fields ≠ []) :
    subset_eq ⟨name, .struct (.named fields), sp⟩ ⟨[], m⟩ =
      .ok ⟨⟨name, .struct (.named fields), sp⟩, name,
           m.getD "eq_subset_ignoring", fields⟩ ∧
    ∀ a b, (runGenerated ⟨⟨name, .struct (.named fields), sp⟩, name,
        m.getD "eq_subset_ignoring", fields⟩ a b = true ↔
          ∀ f ∈ fields, a f = b f) := by
  have hfc : fields_to_compare fields [] = fields := by
    simp [fields_to_compare]
  constructor
  · simp only [subset_eq, hfc]
    rw [if_neg]
    simp only [List.isEmpty_iff]
    exact hne
  · intro a b
    simp [runGenerated, List.all_eq_true]

theorem C10_empty_ignore_full_equality_witness :
    subset_eq ⟨"Item", .struct (.named itemFields), 7⟩ ⟨[], none⟩ =
      .ok ⟨⟨"Item", .struct (.named itemFields), 7⟩, "Item",
           "eq_subset_ignoring", itemFields⟩ :=
  (C10_empty_ignore_full_equality "Item" 7 itemFields none (by decide)).1

end SubsetEq
